import Mathlib

/-!
A shallow embedding of the Ollama handler (`src/handlers/OllamaHandler.ts`):
the adaptive context-sizing cache, the pure context optimizer, the
message/image normalization pipeline, the streaming dispatch loop, and the
embedding entry checks, together with theorems settling the specification
claims about them.

Arithmetic note: the source computes `Math.ceil(inputLength / 2.5)` and
`Math.ceil(x * 1.2)` on IEEE doubles with integer operands.  `2.5` is exact
in binary, so for integers `n` in the representable range the quotient
`n / 2.5` is the correctly rounded value of `2n/5`; its distance to any
integer it does not equal is at least `1/5`, far above the rounding error,
so the ceiling agrees with the rational ceiling `⌈2n/5⌉`.  For `x * 1.2`
the stored constant is below `6/5` by about `4.44e-17`; at integer `x` the
product's error stays below half an ulp of `6x/5`, so the rounded product
equals `6x/5` whenever that is an integer and otherwise lies within the
same unit interval, and the ceiling again agrees with `⌈6x/5⌉`.  The
embedding therefore uses exact natural-number ceilings `(2n+4)/5` and
`(6x+4)/5`.
-/

/-- `DEFAULT_CONTEXT_LENGTH` from the source. -/
def DEFAULT_CONTEXT_LENGTH : Nat := 2048

/-- `EMBEDDING_CONTEXT_LENGTH` from the source. -/
def EMBEDDING_CONTEXT_LENGTH : Nat := 2048

/-- `ModelInfo` cache entry: the model's reported maximum context window
(`0` when unknown) and the most recently requested window size. -/
structure ModelInfo where
  contextLength : Nat
  lastContextLength : Nat
deriving DecidableEq, Repr

/-- `getDefaultModelInfo` from the source. -/
def getDefaultModelInfo : ModelInfo :=
  { contextLength := 0, lastContextLength := DEFAULT_CONTEXT_LENGTH }

/-- `Math.ceil(inputLength / SYMBOLS_PER_TOKEN)` with `SYMBOLS_PER_TOKEN = 2.5`,
i.e. the exact ceiling of `2 * inputLength / 5`. -/
def estimatedTokens (inputLength : Nat) : Nat :=
  (2 * inputLength + 4) / 5

/-- `Math.ceil(x * CONTEXT_BUFFER_MULTIPLIER)` with the multiplier `1.2`,
i.e. the exact ceiling of `6 * x / 5`. -/
def bufferedLength (x : Nat) : Nat :=
  (6 * x + 4) / 5

/-- `optimizeContext` from the source: decides the `num_ctx` to request
(`none` models the returned `undefined`) and whether the cache should be
updated with it. -/
def optimizeContext (inputLength lastContextLength defaultContextLength limit : Nat) :
    Option Nat × Bool :=
  let est := estimatedTokens inputLength
  if est ≤ lastContextLength then
    (if decide (lastContextLength > defaultContextLength) then some lastContextLength else none,
     false)
  else
    let targetLength := min (bufferedLength (max est defaultContextLength)) limit
    (some targetLength, decide (targetLength > lastContextLength))

/-- C1 (counterexample): with estimate `40000 > 2048` and hard limit `0`,
`optimizeContext` returns target `0` — `min` against `0` collapses the
target instead of leaving it uncapped at `⌈40000 * 1.2⌉ = 48000`. -/
theorem optimizeContext_zero_limit_collapses :
    estimatedTokens 100000 > 2048 ∧
    bufferedLength (max (estimatedTokens 100000) 2048) = 48000 ∧
    optimizeContext 100000 2048 2048 0 = (some 0, false) ∧
    (optimizeContext 100000 2048 2048 0).1 ≠ some 48000 := by
  refine ⟨by decide, by decide, by decide, by decide⟩

/-- C1 (amended): whenever the estimate exceeds `lastContextLength` and the
hard limit argument is `0`, `optimizeContext` has no special case for `0`:
the returned target is collapsed to `0` by the `min`, and `shouldUpdate`
is `false`. -/
theorem optimizeContext_zero_limit (inputLength lastContextLength defaultContextLength : Nat)
    (h : estimatedTokens inputLength > lastContextLength) :
    optimizeContext inputLength lastContextLength defaultContextLength 0 = (some 0, false) := by
  unfold optimizeContext
  simp only [Nat.min_zero]
  rw [if_neg (by omega)]
  simp

/-- C1 amended theorem instantiated at a concrete input. -/
theorem optimizeContext_zero_limit_witness :
    estimatedTokens 100000 > 2048 ∧
    optimizeContext 100000 2048 2048 0 = (some 0, false) :=
  ⟨by decide, optimizeContext_zero_limit 100000 2048 2048 (by decide)⟩

/-- C5: when the estimate exceeds `lastContextLength` and the hard limit is
positive, the returned size is `min(⌈max(estimate, default) * 1.2⌉, limit)`
and `shouldUpdate` is `true` exactly when that target exceeds
`lastContextLength`; in particular `optimizeContext 100000 2048 2048 8192 =
(some 8192, true)`. -/
theorem optimizeContext_growth (inputLength lastContextLength defaultContextLength limit : Nat)
    (h : estimatedTokens inputLength > lastContextLength) (hlim : 0 < limit) :
    optimizeContext inputLength lastContextLength defaultContextLength limit =
      (some (min (bufferedLength (max (estimatedTokens inputLength) defaultContextLength)) limit),
       decide (min (bufferedLength (max (estimatedTokens inputLength) defaultContextLength)) limit
          > lastContextLength)) ∧
    optimizeContext 100000 2048 2048 8192 = (some 8192, true) := by
  constructor
  · unfold optimizeContext
    rw [if_neg (by omega)]
  · decide

/-- C5 theorem instantiated at the spec's concrete input. -/
theorem optimizeContext_growth_witness :
    estimatedTokens 100000 > 2048 ∧ (0 : Nat) < 8192 ∧
    optimizeContext 100000 2048 2048 8192 =
      (some (min (bufferedLength (max (estimatedTokens 100000) 2048)) 8192),
       decide (min (bufferedLength (max (estimatedTokens 100000) 2048)) 8192 > 2048)) :=
  ⟨by decide, by decide,
    (optimizeContext_growth 100000 2048 2048 8192 (by decide) (by decide)).1⟩

/-- C6: when the estimate fits within `lastContextLength`, `optimizeContext`
returns `shouldUpdate = false` and size `lastContextLength` exactly when it
strictly exceeds `defaultContextLength`, `none` otherwise; in particular
`optimizeContext 10 2048 2048 8192 = (none, false)`. -/
theorem optimizeContext_fits (inputLength lastContextLength defaultContextLength limit : Nat)
    (h : estimatedTokens inputLength ≤ lastContextLength) :
    optimizeContext inputLength lastContextLength defaultContextLength limit =
      (if lastContextLength > defaultContextLength then some lastContextLength else none,
       false) ∧
    optimizeContext 10 2048 2048 8192 = (none, false) := by
  constructor
  · unfold optimizeContext
    rw [if_pos h]
    by_cases hgt : lastContextLength > defaultContextLength
    · rw [if_pos hgt, if_pos (by exact decide_eq_true hgt)]
    · rw [if_neg hgt, if_neg (by simpa using hgt)]
  · decide

/-- C6 theorem instantiated at the spec's concrete input. -/
theorem optimizeContext_fits_witness :
    estimatedTokens 10 ≤ 2048 ∧
    optimizeContext 10 2048 2048 8192 =
      (if 2048 > 2048 then some 2048 else none, false) :=
  ⟨by decide, (optimizeContext_fits 10 2048 2048 8192 (by decide)).1⟩

/-! ## ModelInfoCache -/

/-- The cache key `` `${provider.url}_${modelName}` `` from the source. -/
def buildCacheKey (url model : String) : String :=
  url ++ "_" ++ model

/-- A value of the backend's `model_info` metadata mapping: a number or
anything else (the source checks `typeof value === 'number'`). -/
inductive MetaValue
  | num (n : Int)
  | other
deriving DecidableEq, Repr

/-- The `typeof value === 'number' && value > 0` test from the source. -/
def isPositiveNum : MetaValue → Bool
  | .num n => decide (0 < n)
  | .other => false

/-- The cache state: an association list keyed by cache key, most recent
binding first (`Map.set` shadows, `Map.get` sees the latest binding). -/
abbrev Cache := List (String × ModelInfo)

/-- The predicate on `model_info` entries used by the source's `find`. -/
def contextLengthEntry (e : String × MetaValue) : Bool :=
  (e.1.endsWith ".context_length" || e.1 == "num_ctx") && isPositiveNum e.2

/-- `getCachedModelInfo` from the source, as a pure function of the cache
state and the outcome of the backend `show` call (`Except.error` models the
call throwing).  Returns the `ModelInfo` handed to the caller together with
the cache state afterwards; the source's `catch` block makes the function
total, so no error is ever propagated. -/
def getCachedModelInfo (cache : Cache) (url model : String)
    (showResult : Except Unit (List (String × MetaValue))) : ModelInfo × Cache :=
  let cacheKey := buildCacheKey url model
  match cache.lookup cacheKey with
  | some cached => (cached, cache)
  | none =>
    match showResult with
    | .ok modelInfoFields =>
      let entry := modelInfoFields.find? contextLengthEntry
      let modelInfo : ModelInfo :=
        match entry with
        | some (_, .num n) => { getDefaultModelInfo with contextLength := n.toNat }
        | _ => getDefaultModelInfo
      (modelInfo, (cacheKey, modelInfo) :: cache)
    | .error _ => (getDefaultModelInfo, cache)

/-- `setModelInfoLastContextLength` from the source: no-op on a cache miss,
and `num_ctx || previous` keeps the previous value for an absent or zero
argument (`0` is falsy). -/
def setModelInfoLastContextLength (cache : Cache) (url model : String)
    (num_ctx : Option Nat) : Cache :=
  let cacheKey := buildCacheKey url model
  match cache.lookup cacheKey with
  | none => cache
  | some modelInfo =>
    (cacheKey,
      { modelInfo with
        lastContextLength :=
          match num_ctx with
          | some n => if n = 0 then modelInfo.lastContextLength else n
          | none => modelInfo.lastContextLength }) :: cache

/-- C2 (counterexample): a failing introspection on an empty cache returns
the default entry but stores nothing — the cache has no entry for the
requested key afterwards, contradicting "stores a default entry in the
cache under the requested key". -/
theorem getCachedModelInfo_failure_not_stored :
    (getCachedModelInfo [] "u" "m" (.error ())).1 = getDefaultModelInfo ∧
    ((getCachedModelInfo [] "u" "m" (.error ())).2).lookup (buildCacheKey "u" "m") = none := by
  constructor <;> rfl

/-- C2 (amended): on any introspection failure with no cached entry for the
key, `getCachedModelInfo` returns the default entry
`{contextLength := 0, lastContextLength := 2048}` and never propagates the
error, but it leaves the cache unchanged instead of storing the default. -/
theorem getCachedModelInfo_failure (cache : Cache) (url model : String)
    (hmiss : cache.lookup (buildCacheKey url model) = none) :
    getCachedModelInfo cache url model (.error ()) =
      ({ contextLength := 0, lastContextLength := 2048 }, cache) := by
  simp only [getCachedModelInfo, hmiss]
  rfl

/-- C2 amended theorem instantiated at a concrete miss. -/
theorem getCachedModelInfo_failure_witness :
    (([] : Cache).lookup (buildCacheKey "u" "m") = none) ∧
    getCachedModelInfo [] "u" "m" (.error ()) =
      ({ contextLength := 0, lastContextLength := 2048 }, []) :=
  ⟨rfl, getCachedModelInfo_failure [] "u" "m" rfl⟩

/-- Splitting a list at a separator character absent from both prefixes is
unambiguous. -/
theorem append_sep_inj (sep : Char) :
    ∀ (l₁ l₂ r₁ r₂ : List Char), sep ∉ l₁ → sep ∉ l₂ →
      l₁ ++ sep :: r₁ = l₂ ++ sep :: r₂ → l₁ = l₂ ∧ r₁ = r₂ := by
  intro l₁
  induction l₁ with
  | nil =>
    intro l₂ r₁ r₂ _ h₂ heq
    cases l₂ with
    | nil => simpa using heq
    | cons b bs =>
      simp only [List.nil_append, List.cons_append, List.cons.injEq] at heq
      exact absurd (heq.1 ▸ List.mem_cons_self b bs) h₂
  | cons a as ih =>
    intro l₂ r₁ r₂ h₁ h₂ heq
    cases l₂ with
    | nil =>
      simp only [List.nil_append, List.cons_append, List.cons.injEq] at heq
      exact absurd (heq.1.symm ▸ List.mem_cons_self a as) h₁
    | cons b bs =>
      simp only [List.cons_append, List.cons.injEq] at heq
      have := ih bs r₁ r₂ (fun hm => h₁ (List.mem_cons_of_mem a hm))
        (fun hm => h₂ (heq.1 ▸ List.mem_cons_of_mem b hm)) heq.2
      exact ⟨by rw [heq.1, this.1], this.2⟩

/-- C3 (counterexample): the underscore-joined cache key is not injective on
`(endpointUrl, model)` — the distinct pairs `("a_b", "c")` and
`("a", "b_c")` share the key `"a_b_c"`. -/
theorem buildCacheKey_not_injective :
    buildCacheKey "a_b" "c" = buildCacheKey "a" "b_c" ∧
    ¬ (("a_b" : String) = "a" ∧ ("c" : String) = "b_c") := by
  constructor
  · rfl
  · intro h
    exact absurd h.1 (by decide)

/-- C3 (amended): equal `(endpointUrl, model)` pairs always share one cache
key (the key is a function of the pair), and for endpoint URLs containing
no underscore the key is injective: keys are equal exactly when both
components are equal.  URLs containing `'_'` can collide across distinct
pairs, as the counterexample shows. -/
theorem buildCacheKey_inj_no_underscore (u m v w : String)
    (hu : '_' ∉ u.data) (hv : '_' ∉ v.data) :
    buildCacheKey u m = buildCacheKey v w ↔ (u = v ∧ m = w) := by
  constructor
  · intro h
    have hdata : u.data ++ '_' :: m.data = v.data ++ '_' :: w.data := by
      have h2 : (buildCacheKey u m).data = (buildCacheKey v w).data := by rw [h]
      simpa [buildCacheKey, String.data_append] using h2
    have := append_sep_inj '_' u.data v.data m.data w.data hu hv hdata
    exact ⟨congrArg String.mk this.1, congrArg String.mk this.2⟩
  · intro h
    rw [h.1, h.2]

/-- C3 amended theorem instantiated at concrete underscore-free URLs. -/
theorem buildCacheKey_inj_witness :
    ('_' ∉ ("http://a" : String).data) ∧ ('_' ∉ ("http://b" : String).data) ∧
    (buildCacheKey "http://a" "m" = buildCacheKey "http://b" "m" ↔
      (("http://a" : String) = "http://b" ∧ ("m" : String) = "m")) :=
  ⟨by decide, by decide,
    buildCacheKey_inj_no_underscore "http://a" "m" "http://b" "m" (by decide) (by decide)⟩

/-! ## EmbeddingRequestHandler -/

/-- A value for the `input` (or legacy `text`) field of an embed request:
either a single string or a list of strings. -/
inductive EmbedValue
  | str (s : String)
  | arr (l : List String)
deriving DecidableEq, Repr

/-- JavaScript falsiness of `inputText` as tested by `if (!inputText)`:
`undefined` and the empty string are falsy; every array — including the
empty array — is truthy. -/
def embedValueFalsy : Option EmbedValue → Bool
  | none => true
  | some (.str s) => s.isEmpty
  | some (.arr _) => false

/-- `params.input ?? (params as any).text`: nullish coalescing, so the
legacy field is consulted only when `input` is absent. -/
def embedInputText (input text : Option EmbedValue) : Option EmbedValue :=
  match input with
  | some v => some v
  | none => text

/-- `Math.max(...inputText.map(text => text.length))` for an array, or the
single string's length; `none` models the `-Infinity` produced by
`Math.max()` on an empty array. -/
def maxInputLength : EmbedValue → Option Nat
  | .str s => some s.length
  | .arr [] => none
  | .arr (t :: ts) => some ((t :: ts).foldl (fun acc x => max acc x.length) 0)

/-- The embed path of the source up to the backend `ollama.embed` call,
as a function of the two input fields and the resolved `ModelInfo`.
`Except.error` models the synchronous throw before any backend call;
`Except.ok o` means exactly one backend embed call is issued, with
`options.num_ctx = o`.  An empty-array input has `maxInputLength =
-Infinity`, whose token estimate fits any window, so it takes the
no-growth branch of `optimizeContext` and still reaches the backend. -/
def embedRun (input text : Option EmbedValue) (modelInfo : ModelInfo) :
    Except String (Option Nat) :=
  let inputText := embedInputText input text
  if embedValueFalsy inputText then
    .error "Either input or text parameter must be provided"
  else
    let lastLen := if modelInfo.lastContextLength = 0 then EMBEDDING_CONTEXT_LENGTH
      else modelInfo.lastContextLength
    match inputText with
    | none => .error "Either input or text parameter must be provided"
    | some v =>
      match maxInputLength v with
      | none =>
        .ok (if decide (lastLen > EMBEDDING_CONTEXT_LENGTH) then some lastLen else none)
      | some len =>
        .ok (optimizeContext len lastLen EMBEDDING_CONTEXT_LENGTH modelInfo.contextLength).1

/-- C9 (counterexample): an embed request whose `input` is the empty array
is an empty input, yet `!inputText` is false for an array, so no error is
thrown and a backend embed call is issued. -/
theorem embedRun_empty_array_calls_backend :
    embedRun (some (.arr [])) none { contextLength := 0, lastContextLength := 2048 } =
      .ok none := by
  rfl

/-- C9 (amended): whenever the coalesced input is absent or an empty
string — every falsy case of `input ?? text` — `embedRun` throws the
configuration error before any backend call; an empty-array input is not
rejected by this check. -/
theorem embedRun_falsy_throws (input text : Option EmbedValue) (modelInfo : ModelInfo)
    (h : embedValueFalsy (embedInputText input text) = true) :
    embedRun input text modelInfo =
      .error "Either input or text parameter must be provided" := by
  unfold embedRun
  rw [if_pos h]

/-- C9 amended theorem instantiated at an absent input and an empty-string
input. -/
theorem embedRun_falsy_throws_witness :
    (embedValueFalsy (embedInputText none none) = true ∧
      embedRun none none { contextLength := 0, lastContextLength := 2048 } =
        .error "Either input or text parameter must be provided") ∧
    (embedValueFalsy (embedInputText (some (.str "")) none) = true ∧
      embedRun (some (.str "")) none { contextLength := 0, lastContextLength := 2048 } =
        .error "Either input or text parameter must be provided") :=
  ⟨⟨rfl, embedRun_falsy_throws none none _ rfl⟩,
   ⟨rfl, embedRun_falsy_throws (some (.str "")) none _ rfl⟩⟩

/-! ## StreamingExecutionController -/

/-- One streamed chunk (`ExtendedChatResponse`): `message?.content?` is a
doubly optional string. -/
structure Chunk where
  message : Option (Option String)
deriving DecidableEq, Repr

/-- `part.message?.content || ''` from the source. -/
def extractContent (c : Chunk) : String :=
  match c.message with
  | some (some s) => s
  | _ => ""

/-- An observable event of one execution: a `data` fan-out carrying the
incremental chunk and the accumulated text, the terminal `end` fan-out
carrying the full text, or the terminal `error` fan-out.  Each emitted
event invokes every subscriber registered on the matching channel once, in
registration order (`handlers.data.forEach` etc.). -/
inductive StreamEvent
  | data (chunk accumulated : String)
  | ended (fullText : String)
  | errored
deriving DecidableEq, Repr

/-- Whether `isAborted` is already `true` at observation point `i`
(observation `i` happens just before processing chunk `i`; observation
`chunks.length` is the `if (!isAborted)` check guarding `end`).
`abortIdx = some k` means `abort()` ran between observations `k - 1` and
`k`; `none` means `abort()` never ran. -/
def abortedAt (abortIdx : Option Nat) (i : Nat) : Bool :=
  match abortIdx with
  | none => false
  | some k => decide (k ≤ i)

/-- The `for await` loop of `execute` followed by the `if (!isAborted)`
end-dispatch, over the list of chunks the backend stream yields:
an aborted observation breaks out of the loop and suppresses `end`; an
empty extracted text emits nothing; a non-empty one appends to `fullText`
and emits one `data` event. -/
def runLoop (abortIdx : Option Nat) : List Chunk → Nat → String → List StreamEvent
  | [], i, fullText =>
    if abortedAt abortIdx i then [] else [.ended fullText]
  | c :: cs, i, fullText =>
    if abortedAt abortIdx i then []
    else
      let responseText := extractContent c
      if responseText = "" then runLoop abortIdx cs (i + 1) fullText
      else .data responseText (fullText ++ responseText) ::
        runLoop abortIdx cs (i + 1) (fullText ++ responseText)

/-- The event trace of one execution whose backend stream yields `chunks`
and whose `abort()` call (if any) is first observed at `abortIdx`. -/
def runExecuteStream (chunks : List Chunk) (abortIdx : Option Nat) : List StreamEvent :=
  runLoop abortIdx chunks 0 ""

/-- The trace of `data` events produced by the non-empty incremental texts
`ts` starting from accumulated text `acc`, with no terminal event. -/
def dataTrace (acc : String) : List String → List StreamEvent
  | [] => []
  | t :: ts => .data t (acc ++ t) :: dataTrace (acc ++ t) ts

/-- The non-empty extracted texts of a chunk list: exactly the chunks for
which the loop emits a `data` event. -/
def nonEmptyTexts (chunks : List Chunk) : List String :=
  (chunks.map extractContent).filter (fun s => !decide (s = ""))

/-- Left-fold concatenation of the incremental texts onto `acc`: the value
of `fullText` after processing them. -/
def accumulate (acc : String) (ts : List String) : String :=
  ts.foldl (fun a b => a ++ b) acc

/-- The arguments passed to one registered `data` subscriber, in order
(`handlers.data.forEach` invokes every subscriber once per event). -/
def dataCalls (events : List StreamEvent) : List (String × String) :=
  events.filterMap fun e =>
    match e with
    | .data c a => some (c, a)
    | _ => none

/-- The arguments passed to one registered `end` subscriber, in order. -/
def endCalls (events : List StreamEvent) : List String :=
  events.filterMap fun e =>
    match e with
    | .ended f => some f
    | _ => none

/-- The number of invocations of one registered `error` subscriber. -/
def errorCalls (events : List StreamEvent) : Nat :=
  (events.filter fun e =>
    match e with
    | .errored => true
    | _ => false).length

/-- With the abort observed from observation `k` on, the loop emits exactly
the `data` events of the non-empty texts among the first `k` chunks and no
terminal event, provided the abort is observed no later than the final
`if (!isAborted)` check. -/
theorem runLoop_aborted (k : Nat) :
    ∀ (chunks : List Chunk) (i : Nat) (acc : String), k ≤ i + chunks.length →
      runLoop (some k) chunks i acc =
        dataTrace acc (nonEmptyTexts (chunks.take (k - i))) := by
  intro chunks
  induction chunks with
  | nil =>
    intro i acc h
    simp only [List.length_nil, Nat.add_zero] at h
    simp [runLoop, abortedAt, h, List.take_nil, nonEmptyTexts, dataTrace]
  | cons c cs ih =>
    intro i acc h
    by_cases hk : k ≤ i
    · have hki : k - i = 0 := Nat.sub_eq_zero_of_le hk
      simp [runLoop, abortedAt, hk, hki, nonEmptyTexts, dataTrace]
    · have hik : i < k := Nat.lt_of_not_le hk
      have htake : (c :: cs).take (k - i) = c :: cs.take (k - (i + 1)) := by
        have : k - i = (k - (i + 1)) + 1 := by omega
        rw [this, List.take_succ_cons]
      rw [runLoop, if_neg (by simp [abortedAt]; omega), htake]
      by_cases hc : extractContent c = ""
      · simp only [hc, if_pos rfl]
        rw [ih (i + 1) acc (by simp at h ⊢; omega)]
        simp [nonEmptyTexts, hc]
      · simp only [if_neg hc]
        rw [ih (i + 1) (acc ++ extractContent c) (by simp at h ⊢; omega)]
        simp [nonEmptyTexts, hc, dataTrace]

/-- C4: an execution aborted before any chunk is processed delivers no
event at all — zero `data`, zero `end`, zero `error` subscriber
invocations; more generally, an abort observed at chunk `k` of the stream
suppresses the terminal events and every `data` event of the chunks from
`k` on. -/
theorem execute_abort_clean (chunks : List Chunk) (k : Nat) :
    runExecuteStream chunks (some 0) = [] ∧
    (k ≤ chunks.length →
      runExecuteStream chunks (some k) = dataTrace "" (nonEmptyTexts (chunks.take k))) := by
  constructor
  · have := runLoop_aborted 0 chunks 0 "" (by omega)
    simpa [runExecuteStream, nonEmptyTexts, dataTrace] using this
  · intro hk
    have := runLoop_aborted k chunks 0 "" (by omega)
    simpa [runExecuteStream] using this

/-- C4 theorem instantiated: aborting a three-chunk stream after the first
chunk emits only that chunk's `data` event, and aborting at observation 0
emits nothing. -/
theorem execute_abort_clean_witness :
    runExecuteStream [⟨some (some "a")⟩, ⟨some (some "b")⟩] (some 0) = [] ∧
    ((1 : Nat) ≤ ([⟨some (some "a")⟩, ⟨some (some "b")⟩] : List Chunk).length ∧
      runExecuteStream [⟨some (some "a")⟩, ⟨some (some "b")⟩] (some 1) =
        dataTrace "" (nonEmptyTexts (([⟨some (some "a")⟩, ⟨some (some "b")⟩] : List Chunk).take 1))) :=
  ⟨(execute_abort_clean [⟨some (some "a")⟩, ⟨some (some "b")⟩] 1).1,
   by decide,
   (execute_abort_clean [⟨some (some "a")⟩, ⟨some (some "b")⟩] 1).2 (by decide)⟩

/-- C8: a stream yielding `"a"`, `"b"`, `"c"` and ending cleanly without
abort invokes each registered `data` subscriber exactly three times, in
stream order, with `("a","a"), ("b","ab"), ("c","abc")`, each `end`
subscriber exactly once with `"abc"`, and no `error` subscriber. -/
theorem execute_stream_abc :
    dataCalls (runExecuteStream
        [⟨some (some "a")⟩, ⟨some (some "b")⟩, ⟨some (some "c")⟩] none) =
      [("a", "a"), ("b", "ab"), ("c", "abc")] ∧
    endCalls (runExecuteStream
        [⟨some (some "a")⟩, ⟨some (some "b")⟩, ⟨some (some "c")⟩] none) = ["abc"] ∧
    errorCalls (runExecuteStream
        [⟨some (some "a")⟩, ⟨some (some "b")⟩, ⟨some (some "c")⟩] none) = 0 := by
  refine ⟨by decide, by decide, by decide⟩

/-- Without abort, the loop emits one `data` event per non-empty extracted
text, accumulating left to right, then exactly one `end` with the final
accumulated text. -/
theorem runLoop_no_abort :
    ∀ (chunks : List Chunk) (i : Nat) (acc : String),
      runLoop none chunks i acc =
        dataTrace acc (nonEmptyTexts chunks) ++
          [.ended (accumulate acc (nonEmptyTexts chunks))] := by
  intro chunks
  induction chunks with
  | nil =>
    intro i acc
    simp [runLoop, abortedAt, nonEmptyTexts, dataTrace, accumulate]
  | cons c cs ih =>
    intro i acc
    rw [runLoop, if_neg (by simp [abortedAt])]
    by_cases hc : extractContent c = ""
    · simp only [hc, if_pos rfl]
      rw [ih (i + 1) acc]
      simp [nonEmptyTexts, hc]
    · simp only [if_neg hc]
      rw [ih (i + 1) (acc ++ extractContent c)]
      simp [nonEmptyTexts, hc, dataTrace, accumulate]

/-- C10: a chunk whose extracted content is absent or empty emits no `data`
event and leaves the accumulated text unchanged: the whole unaborted trace
is the `data` events of exactly the non-empty extracted texts, in order,
followed by one `end`; in particular the number of `data` events is the
number of non-empty texts, which is at most the number of chunks. -/
theorem execute_skips_empty_chunks (chunks : List Chunk) :
    runExecuteStream chunks none =
      dataTrace "" (nonEmptyTexts chunks) ++
        [.ended (accumulate "" (nonEmptyTexts chunks))] ∧
    (nonEmptyTexts chunks).length ≤ chunks.length := by
  constructor
  · exact runLoop_no_abort chunks 0 ""
  · calc (nonEmptyTexts chunks).length
        ≤ (chunks.map extractContent).length := List.length_filter_le _ _
      _ = chunks.length := List.length_map _ _

/-! ## MessageNormalizer -/

/-- A typed content block of a structured message: a `text` block or an
`image_url` block whose `image_url?.url` may be absent. -/
inductive ContentBlock
  | text (text : String)
  | imageUrl (url : Option String)
deriving DecidableEq, Repr

/-- An incoming message: content is either a plain string or a list of
content blocks, plus an optional per-message image list. -/
structure InputMessage where
  role : String
  content : String ⊕ List ContentBlock
  images : Option (List String)
deriving DecidableEq, Repr

/-- The canonical chat message sent to the backend. -/
structure ChatMessage where
  role : String
  content : String
  images : Option (List String)
deriving DecidableEq, Repr

/-- The `filter`/`map`/`join('\n')` extraction of text blocks. -/
def textOfBlocks (blocks : List ContentBlock) : String :=
  String.intercalate "\n" (blocks.filterMap fun b =>
    match b with
    | .text t => some t
    | _ => none)

/-- The image-URL extraction: `block.image_url?.url` must be truthy, so an
absent or empty URL is skipped. -/
def imagesOfBlocks (blocks : List ContentBlock) : List String :=
  blocks.filterMap fun b =>
    match b with
    | .imageUrl (some u) => if u = "" then none else some u
    | _ => none

/-- One iteration of the `params.messages.forEach` body: the chat message
pushed and the images appended (block images first, then the message-level
`images` list). -/
def normalizeMessage (m : InputMessage) : ChatMessage × List String :=
  match m.content with
  | .inl s =>
    ({ role := m.role, content := s, images := none },
     match m.images with
     | some l => l
     | none => [])
  | .inr blocks =>
    ({ role := m.role, content := textOfBlocks blocks, images := none },
     imagesOfBlocks blocks ++
       match m.images with
       | some l => l
       | none => [])

/-- The two request shapes `execute` accepts: structured messages, or the
legacy `{ systemPrompt?, prompt, images? }` form. -/
inductive ExecuteParams
  | messages (msgs : List InputMessage)
  | prompt (systemPrompt : Option String) (prompt : String) (images : Option (List String))
deriving DecidableEq, Repr

/-- The message-preparation phase of `execute`: the canonical chat messages
and the extracted image list, before prefix stripping and attachment.  A
falsy (empty) `systemPrompt` emits no system message. -/
def normalizeParams : ExecuteParams → List ChatMessage × List String
  | .messages msgs =>
    msgs.foldl (fun acc m =>
      let (cm, imgs) := normalizeMessage m
      (acc.1 ++ [cm], acc.2 ++ imgs)) ([], [])
  | .prompt systemPrompt prompt images =>
    ((match systemPrompt with
      | some s => if s = "" then [] else [{ role := "system", content := s, images := none }]
      | none => []) ++
      [{ role := "user", content := prompt, images := none }],
     match images with
     | some l => l
     | none => [])

/-- The line terminators that `.` does not match in a JavaScript regex. -/
def isLineTerminator (c : Char) : Bool :=
  c = Char.ofNat 10 || c = Char.ofNat 13 || c = Char.ofNat 0x2028 || c = Char.ofNat 0x2029

/-- The literal tail `";base64,"` of the stripped prefix. -/
def base64Marker : List Char := ";base64,".data

/-- The literal head `"data:image/"` of the stripped prefix. -/
def dataImagePrefix : List Char := "data:image/".data

/-- The lazy `(.*?);base64,` search: starting at the current position, try
the marker first, otherwise consume one non-line-terminator character and
retry; return what follows the marker, or `none` when no match exists. -/
def findBase64Rest : List Char → Option (List Char)
  | [] => none
  | c :: cs =>
    if base64Marker.isPrefixOf (c :: cs) then some ((c :: cs).drop 8)
    else if isLineTerminator c then none
    else findBase64Rest cs

/-- `image.replace(/^data:image\/(.*?);base64,/, "")` from the source:
strip the anchored lazy match when it exists, otherwise return the string
unchanged. -/
def stripImagePrefix (s : String) : String :=
  if dataImagePrefix.isPrefixOf s.data then
    match findBase64Rest (s.data.drop 11) with
    | some rest => ⟨rest⟩
    | none => s
  else s

/-- `Array.prototype.lastIndexOf`, as an `Option Nat` (`none` models `-1`). -/
def lastIndexOf {α : Type} [DecidableEq α] : List α → α → Option Nat
  | [], _ => none
  | a :: as, x =>
    match lastIndexOf as x with
    | some i => some (i + 1)
    | none => if a = x then some 0 else none

/-- In-place replacement of the message at index `i` with a copy carrying
`images` (the source's object-spread update of `chatMessages[i]`). -/
def setImagesAt : List ChatMessage → Nat → List String → List ChatMessage
  | [], _, _ => []
  | m :: ms, 0, imgs => { m with images := some imgs } :: ms
  | m :: ms, i + 1, imgs => m :: setImagesAt ms i imgs

/-- The image-attachment phase of `execute` (`if (processedImages?.length)`):
attach to the last `user` message, else to the last message, else create a
new `user` message with empty content. -/
def addImages (msgs : List ChatMessage) (processed : Option (List String)) :
    List ChatMessage :=
  match processed with
  | none => msgs
  | some imgs =>
    if imgs.isEmpty then msgs
    else
      match lastIndexOf (msgs.map fun m => m.role) "user" with
      | some i => setImagesAt msgs i imgs
      | none =>
        if msgs.isEmpty then [{ role := "user", content := "", images := some imgs }]
        else setImagesAt msgs (msgs.length - 1) imgs

/-- The full message pipeline of `execute`: normalization, prefix
stripping (`processedImages` is `undefined` when no image was collected),
and attachment. -/
def buildChatMessages (p : ExecuteParams) : List ChatMessage :=
  let (msgs, extracted) := normalizeParams p
  let processed :=
    if extracted.length > 0 then some (extracted.map stripImagePrefix) else none
  addImages msgs processed


/-- A list is an `isPrefixOf` of itself followed by anything. -/
theorem isPrefixOf_append_self {α : Type} [BEq α] [LawfulBEq α] :
    ∀ (l r : List α), l.isPrefixOf (l ++ r) = true := by
  intro l
  induction l with
  | nil => intro r; simp
  | cons a as ih =>
    intro r
    rw [List.cons_append, List.isPrefixOf_cons₂_self]
    exact ih r

/-- The lazy search finds the marker exactly at the end of a run of
characters that contains no semicolon and no line terminator. -/
theorem findBase64Rest_concat (payload : List Char) :
    ∀ fmt : List Char, (∀ c ∈ fmt, isLineTerminator c = false) → ';' ∉ fmt →
      findBase64Rest (fmt ++ (base64Marker ++ payload)) = some payload := by
  intro fmt
  induction fmt with
  | nil =>
    intro _ _
    have heq : base64Marker ++ payload = ';' :: ("base64,".data ++ payload) := rfl
    have hpre := isPrefixOf_append_self base64Marker payload
    rw [heq] at hpre
    rw [List.nil_append, heq, findBase64Rest, if_pos hpre]
    have hdrop : List.drop 8 (';' :: ("base64,".data ++ payload)) = payload := by
      have h8 : (';' :: "base64,".data).length = 8 := rfl
      calc List.drop 8 (';' :: ("base64,".data ++ payload))
          = List.drop (';' :: "base64,".data).length ((';' :: "base64,".data) ++ payload) := by
            rw [h8]; rfl
        _ = payload := List.drop_left _ _
    rw [hdrop]
  | cons c cs ih =>
    intro hterm hsemi
    have hc : c ≠ ';' := fun h => hsemi (h ▸ List.mem_cons_self c cs)
    have hm : base64Marker = ';' :: "base64,".data := rfl
    rw [List.cons_append, findBase64Rest]
    have hfalse : base64Marker.isPrefixOf (c :: (cs ++ (base64Marker ++ payload))) = false := by
      rw [hm, List.isPrefixOf_cons₂]
      have hbeq : (';' == c) = false := beq_eq_false_iff_ne.mpr fun h => hc h.symm
      rw [hbeq, Bool.false_and]
    rw [if_neg (by simp [hfalse]), if_neg (by simp [hterm c (List.mem_cons_self c cs)])]
    exact ih (fun x hx => hterm x (List.mem_cons_of_mem c hx))
      (fun hx => hsemi (List.mem_cons_of_mem c hx))

/-- Stripping a well-formed data-URL prefix returns the raw payload. -/
theorem stripImagePrefix_data_url (fmt payload : List Char)
    (hterm : ∀ c ∈ fmt, isLineTerminator c = false) (hsemi : ';' ∉ fmt) :
    stripImagePrefix ⟨dataImagePrefix ++ (fmt ++ (base64Marker ++ payload))⟩ = ⟨payload⟩ := by
  unfold stripImagePrefix
  rw [if_pos (by exact isPrefixOf_append_self dataImagePrefix _)]
  have hdrop : (String.mk (dataImagePrefix ++ (fmt ++ (base64Marker ++ payload)))).data.drop 11 =
      fmt ++ (base64Marker ++ payload) := by
    show (dataImagePrefix ++ (fmt ++ (base64Marker ++ payload))).drop 11 = _
    exact List.drop_left' rfl
  rw [hdrop, findBase64Rest_concat payload fmt hterm hsemi]

/-- A `some` result of `lastIndexOf` means the element occurs in the list. -/
theorem mem_of_lastIndexOf_some {α : Type} [DecidableEq α] (x : α) :
    ∀ (l : List α) (i : Nat), lastIndexOf l x = some i → x ∈ l := by
  intro l
  induction l with
  | nil => intro i h; exact absurd h (by simp [lastIndexOf])
  | cons a as ih =>
    intro i h
    rw [lastIndexOf] at h
    cases hrec : lastIndexOf as x with
    | some i' =>
      exact List.mem_cons_of_mem a (ih i' hrec)
    | none =>
      rw [hrec] at h
      by_cases hax : a = x
      · exact hax ▸ List.mem_cons_self a as
      · rw [if_neg hax] at h
        exact absurd h (by simp)

/-- `lastIndexOf` returns `none` exactly when the element is absent. -/
theorem lastIndexOf_eq_none {α : Type} [DecidableEq α] (x : α) :
    ∀ l : List α, lastIndexOf l x = none ↔ x ∉ l := by
  intro l
  induction l with
  | nil => simp [lastIndexOf]
  | cons a as ih =>
    rw [lastIndexOf]
    cases hrec : lastIndexOf as x with
    | some i' =>
      simp only [List.mem_cons, not_or]
      constructor
      · intro hc; exact absurd hc (by simp)
      · intro hc
        exact absurd (mem_of_lastIndexOf_some x as i' hrec) hc.2
    | none =>
      by_cases hax : a = x
      · rw [if_pos hax]
        simp only [List.mem_cons, not_or]
        constructor
        · intro hc; exact absurd hc (by simp)
        · intro hc; exact absurd hax.symm hc.1
      · rw [if_neg hax]
        simp only [List.mem_cons, not_or, true_iff]
        exact ⟨fun h2 => hax h2.symm, ih.mp hrec⟩

/-- When `lastIndexOf` returns an index, the element sits there and no
later index holds it. -/
theorem lastIndexOf_spec {α : Type} [DecidableEq α] (x : α) :
    ∀ (l : List α) (i : Nat), lastIndexOf l x = some i →
      l[i]? = some x ∧ ∀ j, i < j → ∀ y, l[j]? = some y → y ≠ x := by
  intro l
  induction l with
  | nil => intro i h; exact absurd h (by simp [lastIndexOf])
  | cons a as ih =>
    intro i h
    rw [lastIndexOf] at h
    cases hrec : lastIndexOf as x with
    | some i' =>
      rw [hrec] at h
      simp only [Option.some.injEq] at h
      subst h
      obtain ⟨hget, hmax⟩ := ih i' hrec
      refine ⟨by simpa using hget, ?_⟩
      intro j hj y hy
      match j, hj with
      | j' + 1, hj =>
        rw [List.getElem?_cons_succ] at hy
        exact hmax j' (Nat.lt_of_succ_lt_succ hj) y hy
    | none =>
      rw [hrec] at h
      by_cases hax : a = x
      · rw [if_pos hax] at h
        simp only [Option.some.injEq] at h
        subst h
        refine ⟨by simpa using hax, ?_⟩
        intro j hj y hy
        match j, hj with
        | j' + 1, _ =>
          rw [List.getElem?_cons_succ] at hy
          intro hyx
          exact (lastIndexOf_eq_none x as).mp hrec (hyx ▸ List.getElem?_mem hy)
      · rw [if_neg hax] at h
        exact absurd h (by simp)

/-- Replacing index `i` rewrites the list as `take i ++ updated :: drop (i+1)`. -/
theorem setImagesAt_eq (imgs : List String) :
    ∀ (msgs : List ChatMessage) (i : Nat) (m : ChatMessage), msgs[i]? = some m →
      setImagesAt msgs i imgs =
        msgs.take i ++ ({ m with images := some imgs } :: msgs.drop (i + 1)) := by
  intro msgs
  induction msgs with
  | nil => intro i m h; exact absurd h (by simp)
  | cons a as ih =>
    intro i m h
    match i with
    | 0 =>
      simp only [List.getElem?_cons_zero, Option.some.injEq] at h
      subst h
      simp [setImagesAt]
    | i' + 1 =>
      rw [List.getElem?_cons_succ] at h
      rw [setImagesAt, ih i' m h]
      simp [List.take_succ_cons, List.drop_succ_cons]

/-- Replacing the final index rewrites the list as `dropLast ++ [updated]`. -/
theorem setImagesAt_last (imgs : List String) :
    ∀ (msgs : List ChatMessage) (mlast : ChatMessage), msgs.getLast? = some mlast →
      setImagesAt msgs (msgs.length - 1) imgs =
        msgs.dropLast ++ [{ mlast with images := some imgs }] := by
  intro msgs
  induction msgs with
  | nil => intro m h; exact absurd h (by simp)
  | cons a as ih =>
    intro mlast h
    match as with
    | [] =>
      simp only [List.getLast?_singleton, Option.some.injEq] at h
      subst h
      simp [setImagesAt]
    | b :: bs =>
      rw [List.getLast?_cons_cons] at h
      have hlen : (a :: b :: bs).length - 1 = ((b :: bs).length - 1) + 1 := by
        simp [List.length_cons]
      rw [hlen, setImagesAt, ih mlast h]
      rw [List.dropLast_cons₂, List.cons_append]

/-- Reduction of `addImages` at a present image list. -/
theorem addImages_some (msgs : List ChatMessage) (imgs : List String) :
    addImages msgs (some imgs) =
      if imgs.isEmpty then msgs
      else
        match lastIndexOf (msgs.map fun m => m.role) "user" with
        | some i => setImagesAt msgs i imgs
        | none =>
          if msgs.isEmpty then [{ role := "user", content := "", images := some imgs }]
          else setImagesAt msgs (msgs.length - 1) imgs := rfl

/-- C7: when the normalized messages carry at least one collected image,
every attached image is the prefix-stripped form of the extracted one
(every well-formed `data:image/<fmt>;base64,` prefix is removed), and the
whole image list lands on the last `user` message; with no `user` message
it lands on the last message of any role; with no messages at all a single
empty-content `user` message is created to carry it. -/
theorem execute_image_attachment (p : ExecuteParams) (msgs : List ChatMessage)
    (extracted : List String) (hn : normalizeParams p = (msgs, extracted))
    (hne : extracted ≠ []) :
    (∀ fmt payload : List Char, (∀ c ∈ fmt, isLineTerminator c = false) → ';' ∉ fmt →
        stripImagePrefix ⟨dataImagePrefix ++ (fmt ++ (base64Marker ++ payload))⟩ = ⟨payload⟩) ∧
    ((∃ i m, msgs[i]? = some m ∧ m.role = "user" ∧
        (∀ j, i < j → ∀ m2, msgs[j]? = some m2 → m2.role ≠ "user") ∧
        buildChatMessages p =
          msgs.take i ++
            ({ m with images := some (extracted.map stripImagePrefix) } :: msgs.drop (i + 1))) ∨
      ((∀ m ∈ msgs, m.role ≠ "user") ∧ ∃ mlast, msgs.getLast? = some mlast ∧
        buildChatMessages p =
          msgs.dropLast ++ [{ mlast with images := some (extracted.map stripImagePrefix) }]) ∨
      (msgs = [] ∧ buildChatMessages p =
        [{ role := "user", content := "", images := some (extracted.map stripImagePrefix) }])) := by
  refine ⟨fun fmt payload hterm hsemi => stripImagePrefix_data_url fmt payload hterm hsemi, ?_⟩
  have hb : buildChatMessages p = addImages msgs (some (extracted.map stripImagePrefix)) := by
    unfold buildChatMessages
    rw [hn]
    simp only []
    rw [if_pos (by exact List.length_pos.mpr hne)]
  have himgs : (extracted.map stripImagePrefix).isEmpty = false :=
    List.isEmpty_eq_false.mpr (by simp [hne])
  cases hidx : lastIndexOf (msgs.map fun m => m.role) "user" with
  | some i =>
    obtain ⟨hget, hmax⟩ := lastIndexOf_spec "user" (msgs.map fun m => m.role) i hidx
    rw [List.getElem?_map] at hget
    obtain ⟨m, hm, hrole⟩ := Option.map_eq_some'.mp hget
    left
    refine ⟨i, m, hm, hrole, ?_, ?_⟩
    · intro j hj m2 hm2
      refine hmax j hj m2.role ?_
      rw [List.getElem?_map, hm2]
      rfl
    · rw [hb]
      have haddi : addImages msgs (some (extracted.map stripImagePrefix)) =
          setImagesAt msgs i (extracted.map stripImagePrefix) := by
        rw [addImages_some, if_neg (by simp [himgs]), hidx]
      rw [haddi]
      exact setImagesAt_eq _ msgs i m hm
  | none =>
    have hnotmem := (lastIndexOf_eq_none "user" (msgs.map fun m => m.role)).mp hidx
    cases msgs with
    | nil =>
      right; right
      refine ⟨rfl, ?_⟩
      rw [hb, addImages_some, if_neg (by simp [himgs])]
      rfl
    | cons a as =>
      right; left
      constructor
      · intro m hm hrole
        apply hnotmem
        rw [← hrole]
        exact List.mem_map_of_mem (fun m => m.role) hm
      · obtain ⟨mlast, hml⟩ : ∃ mlast, (a :: as).getLast? = some mlast := by
          cases hml : (a :: as).getLast? with
          | some m => exact ⟨m, rfl⟩
          | none => exact absurd (List.getLast?_eq_none_iff.mp hml) (by simp)
        refine ⟨mlast, hml, ?_⟩
        rw [hb]
        have haddl : addImages (a :: as) (some (extracted.map stripImagePrefix)) =
            setImagesAt (a :: as) ((a :: as).length - 1) (extracted.map stripImagePrefix) := by
          rw [addImages_some, if_neg (by simp [himgs]), hidx]
          rfl
        rw [haddl]
        exact setImagesAt_last _ (a :: as) mlast hml

/-- C7 theorem instantiated: one user turn with a text block `"hi"` and a
data-URL image block normalizes to one user message carrying the stripped
payload. -/
theorem execute_image_attachment_witness :
    (normalizeParams (ExecuteParams.messages
        [{ role := "user",
           content := Sum.inr [ContentBlock.text "hi",
             ContentBlock.imageUrl (some "data:image/png;base64,AAA")],
           images := none }]) =
      ([{ role := "user", content := "hi", images := none }],
       ["data:image/png;base64,AAA"]) ∧
      (["data:image/png;base64,AAA"] : List String) ≠ []) ∧
    ((∀ fmt payload : List Char, (∀ c ∈ fmt, isLineTerminator c = false) → ';' ∉ fmt →
        stripImagePrefix ⟨dataImagePrefix ++ (fmt ++ (base64Marker ++ payload))⟩ = ⟨payload⟩) ∧
      ((∃ i m,
          ([{ role := "user", content := "hi", images := none }] : List ChatMessage)[i]? = some m ∧
          m.role = "user" ∧
          (∀ j, i < j → ∀ m2,
            ([{ role := "user", content := "hi", images := none }] : List ChatMessage)[j]? = some m2 →
              m2.role ≠ "user") ∧
          buildChatMessages (ExecuteParams.messages
              [{ role := "user",
                 content := Sum.inr [ContentBlock.text "hi",
                   ContentBlock.imageUrl (some "data:image/png;base64,AAA")],
                 images := none }]) =
            ([{ role := "user", content := "hi", images := none }] : List ChatMessage).take i ++
              ({ m with images := some (["data:image/png;base64,AAA"].map stripImagePrefix) } ::
                ([{ role := "user", content := "hi", images := none }] : List ChatMessage).drop (i + 1))) ∨
        ((∀ m ∈ ([{ role := "user", content := "hi", images := none }] : List ChatMessage),
            m.role ≠ "user") ∧ ∃ mlast,
          ([{ role := "user", content := "hi", images := none }] : List ChatMessage).getLast? = some mlast ∧
          buildChatMessages (ExecuteParams.messages
              [{ role := "user",
                 content := Sum.inr [ContentBlock.text "hi",
                   ContentBlock.imageUrl (some "data:image/png;base64,AAA")],
                 images := none }]) =
            ([{ role := "user", content := "hi", images := none }] : List ChatMessage).dropLast ++
              [{ mlast with images := some (["data:image/png;base64,AAA"].map stripImagePrefix) }]) ∨
        (([{ role := "user", content := "hi", images := none }] : List ChatMessage) = [] ∧
          buildChatMessages (ExecuteParams.messages
              [{ role := "user",
                 content := Sum.inr [ContentBlock.text "hi",
                   ContentBlock.imageUrl (some "data:image/png;base64,AAA")],
                 images := none }]) =
            [{ role := "user", content := "",
               images := some (["data:image/png;base64,AAA"].map stripImagePrefix) }]))) :=
  ⟨⟨by decide, by decide⟩,
    execute_image_attachment _ _ _ (by decide) (by decide)⟩
